import Mathlib

/-!
Verification of the oemof custom-component layer (`oemof/solph/custom.py`)
and the plotting view helper (`oemof/outputlib/plot.py`).

The Python code is shallowly embedded: dictionaries become association
lists with Python's insertion-order update semantics, numpy floats become
rationals, pyomo linear expressions become an explicit `LinExpr` datatype,
and exceptions become `Except` values.
-/

namespace Oemof

/-- Python `int()` applied to a numeric value: truncation toward zero. -/
def pyInt (q : ℚ) : ℤ :=
  if 0 ≤ q then ⌊q⌋ else ⌈q⌉

/-- Python `dict.get`: first binding of the key in the association list. -/
def pyGet {α β : Type} [DecidableEq α] (d : List (α × β)) (k : α) : Option β :=
  match d with
  | [] => none
  | p :: rest => if p.1 = k then some p.2 else pyGet rest k

/-- Python `d[k] = v` on a dict kept as an insertion-ordered association
list: overwrite in place if the key is present, append otherwise. -/
def dictSet {α β : Type} [DecidableEq α] (d : List (α × β)) (k : α) (v : β) :
    List (α × β) :=
  match d with
  | [] => [(k, v)]
  | p :: rest => if p.1 = k then (k, v) :: rest else p :: dictSet rest k v

/-- Python `dict.update`: apply every binding of `upds` in order. -/
def dictUpdate {α β : Type} [DecidableEq α] (d : List (α × β))
    (upds : List (α × β)) : List (α × β) :=
  upds.foldl (fun acc p => dictSet acc p.1 p.2) d

/-- Python `dict.pop(k, None)`: remove the binding of `k`, if any. -/
def pyPop {α β : Type} [DecidableEq α] (d : List (α × β)) (k : α) :
    List (α × β) :=
  d.filter (fun p => ¬ p.1 = k)

/-! ### Degree-1 least squares (model of `np.polyfit(x, y, 1)`) -/

/-- Number of sample points, as a rational. -/
def lsN (pts : List (ℚ × ℚ)) : ℚ := (pts.length : ℚ)

/-- Sum of the x coordinates. -/
def lsSx (pts : List (ℚ × ℚ)) : ℚ := (pts.map Prod.fst).sum

/-- Sum of the y coordinates. -/
def lsSy (pts : List (ℚ × ℚ)) : ℚ := (pts.map Prod.snd).sum

/-- Sum of the squared x coordinates. -/
def lsSxx (pts : List (ℚ × ℚ)) : ℚ := (pts.map (fun p => p.1 * p.1)).sum

/-- Sum of the products x*y. -/
def lsSxy (pts : List (ℚ × ℚ)) : ℚ := (pts.map (fun p => p.1 * p.2)).sum

/-- Determinant of the 2x2 normal-equation system of a degree-1 fit. -/
def lsDenom (pts : List (ℚ × ℚ)) : ℚ :=
  lsN pts * lsSxx pts - lsSx pts * lsSx pts

/-- Slope of the degree-1 least-squares fit of a list of points. -/
def lsSlope (pts : List (ℚ × ℚ)) : ℚ :=
  (lsN pts * lsSxy pts - lsSx pts * lsSy pts) / lsDenom pts

/-- Intercept of the degree-1 least-squares fit of a list of points. -/
def lsIntercept (pts : List (ℚ × ℚ)) : ℚ :=
  (lsSy pts - lsSlope pts * lsSx pts) / lsN pts

/-- Sum of squared residuals of the line `y = a*x + b` on `pts`. -/
def SSR (pts : List (ℚ × ℚ)) (a b : ℚ) : ℚ :=
  (pts.map (fun p => (a * p.1 + b - p.2) ^ 2)).sum

/-- Model of `np.polyfit(x, y, 1)` (external library): the degree-1
least-squares coefficients `(slope, intercept)` for the paired samples
`zip x y`. -/
def polyfit1 (x y : List ℚ) : ℚ × ℚ :=
  (lsSlope (x.zip y), lsIntercept (x.zip y))

/-! ### Data model of `oemof/solph/custom.py` -/

/-- A solph `Flow` object; only the `nominal_value` attribute is read by
the diesel-generator block. -/
structure Flow where
  nominal_value : ℚ
deriving DecidableEq, Repr

/-- An `oemof.Bus` node: a label and its `outputs` dict, keyed by the
label of the receiving node. -/
structure Bus where
  label : String
  outputs : List (String × Flow)
deriving DecidableEq, Repr

/-- The `DieselGenerator` component after `__init__` has run. -/
structure DieselGenerator where
  label : String
  fuel_input : List (Bus × Flow)
  electrical_output : List (String × Flow)
  fuel_curve : List (ℚ × ℚ)
  outputs : List (String × Flow)
  fuel_coeff_a : ℚ
  fuel_coeff_b : ℚ
deriving DecidableEq, Repr

/-- `DieselGenerator.__init__`: registers the generator in the first fuel
bus's `outputs`, merges `electrical_output` into the component's own
`outputs` (on top of whatever the `Transformer` base init produced,
`baseOutputs`), and linearizes the fuel curve by fitting a line through
the independently sorted keys and `int`-truncated values.  Returns the
component together with the mutated first fuel bus; `none` when
`fuel_input` is empty (`list(...)[0]` raises). -/
def DieselGenerator.init (label : String) (fuel_curve : List (ℚ × ℚ))
    (fuel_input : List (Bus × Flow)) (electrical_output : List (String × Flow))
    (baseOutputs : List (String × Flow)) : Option (DieselGenerator × Bus) :=
  match fuel_input with
  | [] => none
  | (fuel_bus, fuel_flow) :: _ =>
    let x := List.insertionSort (fun a b : ℚ => a ≤ b) (fuel_curve.map Prod.fst)
    let y := List.insertionSort (fun a b : ℚ => a ≤ b)
      (fuel_curve.map (fun p => (pyInt p.2 : ℚ)))
    let z := polyfit1 x y
    some
      ({ label := label
         fuel_input := fuel_input
         electrical_output := electrical_output
         fuel_curve := fuel_curve
         outputs := dictUpdate baseOutputs electrical_output
         fuel_coeff_a := z.1
         fuel_coeff_b := z.2 },
       { fuel_bus with outputs := dictSet fuel_bus.outputs label fuel_flow })

/-- The pair list that `DieselGenerator.__init__` actually fits: keys
sorted ascending, zipped with the independently sorted `int`-truncated
values. -/
def sortedTruncPairs (fuel_curve : List (ℚ × ℚ)) : List (ℚ × ℚ) :=
  (List.insertionSort (fun a b : ℚ => a ≤ b) (fuel_curve.map Prod.fst)).zip
    (List.insertionSort (fun a b : ℚ => a ≤ b)
      (fuel_curve.map (fun p => (pyInt p.2 : ℚ))))

/-! ### Node kinds and the grouping function -/

/-- A node of the energy-system graph, as far as `isinstance` checks in
`custom_component_grouping` are concerned. -/
inductive Node where
  | dieselGenerator (g : DieselGenerator)
  | bus (b : Bus)
  | other (label : String)
deriving DecidableEq, Repr

/-- The constraint-block classes this module can hand to the model. -/
inductive BlockClass where
  | dieselGeneratorBlock
deriving DecidableEq, Repr

/-- `custom_component_grouping`: returns the `DieselGeneratorBlock` class
for `DieselGenerator` instances and (implicitly) `None` otherwise. -/
def custom_component_grouping : Node → Option BlockClass
  | .dieselGenerator _ => some .dieselGeneratorBlock
  | _ => none

/-! ### Pyomo model fragment seen by `DieselGeneratorBlock._create` -/

/-- The decision variables the block's constraint mentions: the continuous
flow variables `m.flow[a, b, t]` and the binary status variables
`m.NonConvexFlow.status[n, o, t]`, indexed by node labels. -/
inductive PVar where
  | flow (src tgt : String) (t : ℕ)
  | status (n o : String) (t : ℕ)
deriving DecidableEq, Repr

/-- A pyomo linear expression: rational coefficients over `PVar` plus a
constant. -/
structure LinExpr where
  coeffs : List (PVar × ℚ)
  const : ℚ
deriving DecidableEq, Repr

/-- Value of a linear expression under an assignment of the variables. -/
def LinExpr.eval (e : LinExpr) (σ : PVar → ℚ) : ℚ :=
  (e.coeffs.map (fun p => p.2 * σ p.1)).sum + e.const

/-- A bare variable as an expression. -/
def LinExpr.var (v : PVar) : LinExpr := ⟨[(v, 1)], 0⟩

/-- Difference of two linear expressions. -/
def LinExpr.sub (e₁ e₂ : LinExpr) : LinExpr :=
  ⟨e₁.coeffs ++ e₂.coeffs.map (fun p => (p.1, -p.2)), e₁.const - e₂.const⟩

/-- A linear expression multiplied by a scalar. -/
def LinExpr.mulc (e : LinExpr) (c : ℚ) : LinExpr :=
  ⟨e.coeffs.map (fun p => (p.1, p.2 * c)), e.const * c⟩

/-- A linear expression divided by a scalar; raises (an `Except.error`)
on division by zero. -/
def LinExpr.divc (e : LinExpr) (c : ℚ) : Except String LinExpr :=
  if c = 0 then .error "ZeroDivisionError" else .ok (e.mulc c⁻¹)

/-- The surrounding optimization model `m`: its time index set and the
`flows` dict giving each `(source, target)` edge's `Flow` object. -/
structure Model where
  TIMESTEPS : List ℕ
  flows : String → String → Flow

/-- A Python `ValueError(arg1, arg2)` as raised by the block. -/
structure PyValueError where
  arg1 : String
  arg2 : String
deriving DecidableEq, Repr

/-- One equality constraint of the block's `relation` container, with its
pyomo index `(n, i, o, t)` (node, fuel bus, output bus, timestep). -/
structure DGConstraint where
  index : String × String × String × ℕ
  lhs : LinExpr
  rhs : LinExpr
deriving DecidableEq, Repr

/-- The `ValueError` the block raises when building the expression for
generator `n` and output bus `o` fails. -/
def valueErrorFor (n : DieselGenerator) (o : String) : PyValueError :=
  ⟨"Error in constraint creation", "source: " ++ n.label ++ ", target: " ++ o⟩

/-- Construction of the single constraint for `(n, i, o, t)`: the body of
the innermost loop of `_input_output_relation_rule`.  Any exception while
building `lhs`/`rhs` (division by a zero `fuel_coeff_a`) is converted to
the block's `ValueError`. -/
def mkConstraint (m : Model) (n : DieselGenerator) (i o : String) (t : ℕ) :
    Except PyValueError DGConstraint :=
  match (((LinExpr.var (.flow i n.label t)).sub
        ((LinExpr.var (.status n.label o t)).mulc n.fuel_coeff_b)).mulc
        (m.flows n.label o).nominal_value).divc n.fuel_coeff_a with
  | .error _ => .error (valueErrorFor n o)
  | .ok lhs => .ok ⟨(n.label, i, o, t), lhs, LinExpr.var (.flow n.label o t)⟩

/-- The constraint `mkConstraint` yields when `fuel_coeff_a ≠ 0`. -/
def pureConstraint (m : Model) (n : DieselGenerator) (i o : String) (t : ℕ) :
    DGConstraint :=
  ⟨(n.label, i, o, t),
   ((((LinExpr.var (.flow i n.label t)).sub
        ((LinExpr.var (.status n.label o t)).mulc n.fuel_coeff_b)).mulc
        (m.flows n.label o).nominal_value).mulc n.fuel_coeff_a⁻¹),
   LinExpr.var (.flow n.label o t)⟩

/-- `in_flows[n]`: the labels of the fuel-input buses of `n`. -/
def inFlowLabels (n : DieselGenerator) : List String :=
  n.fuel_input.map (fun p => p.1.label)

/-- `out_flows[n]`: the labels of the electrical-output buses of `n`. -/
def outFlowLabels (n : DieselGenerator) : List String :=
  n.electrical_output.map Prod.fst

/-- The loop nest of `_input_output_relation_rule`: one quadruple
`(n, i, o, t)` per constraint to be added, in loop order
(`for n / for t / for i / for o`). -/
def constraintQuads (m : Model) (group : List DieselGenerator) :
    List (DieselGenerator × String × String × ℕ) :=
  group.flatMap (fun n => m.TIMESTEPS.flatMap (fun t =>
    (inFlowLabels n).flatMap (fun i =>
      (outFlowLabels n).map (fun o => (n, i, o, t)))))

/-- The `BuildAction` body: add the constraints in loop order, stopping
with the converted `ValueError` if any construction fails. -/
def buildConstraints (m : Model) (group : List DieselGenerator) :
    Except PyValueError (List DGConstraint) :=
  (constraintQuads m group).mapM
    (fun q => mkConstraint m q.1 q.2.1 q.2.2.1 q.2.2.2)

/-- `DieselGeneratorBlock._create`: with `group = None` nothing is done
and `None` is returned; otherwise the relation constraints are built for
the given list of generators. -/
def DieselGeneratorBlock.create (m : Model)
    (group : Option (List DieselGenerator)) :
    Option (Except PyValueError (List DGConstraint)) :=
  match group with
  | none => none
  | some g => some (buildConstraints m g)

/-! ### `oemof/outputlib/plot.py`: the `ViewPlot` helper -/

/-- A column of the multi-indexed results DataFrame: the flow tuple of
node labels (`c[0]`) and the variable name (`c[1]`, e.g. `'flow'`). -/
abbrev Col := List String × String

/-- The state of a `ViewPlot` object that the verified methods touch.
`results` stands for `views.node(self.results, node)['sequences']`
(an external projection), abstracted as the column list per node label. -/
structure ViewPlot where
  results : String → List Col
  seq : List Col
  subset : List Col
  in_cols : Option (List Col)
  out_cols : Option (List Col)
  node : Option String
  legend_kwargs : List (String × String)

/-- `ViewPlot.update_node`. -/
def ViewPlot.update_node (vp : ViewPlot) (node : String) : ViewPlot :=
  let seq := vp.results node
  { vp with
    seq := seq
    in_cols := some (seq.filter (fun c => 1 < c.1.length ∧ c.1.getD 1 "" = node))
    out_cols := some (seq.filter (fun c => 1 < c.1.length ∧ c.1.getD 0 "" = node))
    node := some node
    subset := seq
    legend_kwargs := pyPop (pyPop vp.legend_kwargs "labels") "handles" }

/-- `ViewPlot.rearrange_subset`: returns the updated object, the
rearranged column list (`df[neworder]`), and whether the warning about
dropped columns was logged. -/
def ViewPlot.rearrange_subset (vp : ViewPlot) (order : List Col)
    (df : Option (List Col)) : ViewPlot × List Col × Bool :=
  let cols := df.getD vp.subset
  let use_subset := df.isNone
  let neworder := order.filter (fun x => x ∈ cols)
  let missing := cols.filter (fun x => ¬ x ∈ order)
  let warned := decide (0 < missing.length)
  (if use_subset then { vp with subset := neworder } else vp, neworder, warned)

/-- Result of `ViewPlot.color_from_dict`: a bare color string when the
computed list has exactly one entry, the list itself otherwise. -/
inductive ColorSpec where
  | one (c : String)
  | many (cs : List String)
deriving DecidableEq, Repr

/-- `ViewPlot.color_from_dict`. -/
def ViewPlot.color_from_dict (vp : ViewPlot) (colordict : List (Col × String))
    (df : Option (List Col)) : ColorSpec :=
  let cols := df.getD vp.subset
  let tmplist := cols.map (fun c => (pyGet colordict c).getD "#ff00f0")
  match tmplist with
  | [cl] => .one cl
  | l => .many l

/-! ### Concrete instances used to exercise the theorems -/

/-- A sample flow. -/
def flowW : Flow := ⟨10⟩

/-- A sample fuel bus. -/
def busW : Bus := ⟨"fuel_bus", []⟩

/-- A sample generator (as `__init__` would leave it for the fuel curve
`{0: 1, 1: 3}`). -/
def dgW : DieselGenerator :=
  { label := "dg"
    fuel_input := [(busW, flowW)]
    electrical_output := [("el", flowW)]
    fuel_curve := [(0, 1), (1, 3)]
    outputs := [("el", flowW)]
    fuel_coeff_a := 2
    fuel_coeff_b := 1 }

/-- A sample model with a single timestep. -/
def modelW : Model := { TIMESTEPS := [0], flows := fun _ _ => flowW }

/-- The first fuel bus after `__init__` has registered the generator. -/
def busW' : Bus := ⟨"fuel_bus", [("dg", flowW)]⟩

/-- A generator whose fitted `fuel_coeff_a` is zero (constant fuel
curve), which makes the constraint expression divide by zero. -/
def dgZ : DieselGenerator :=
  { label := "dg0"
    fuel_input := [(busW, flowW)]
    electrical_output := [("el", flowW)]
    fuel_curve := [(0, 2), (1, 2)]
    outputs := [("el", flowW)]
    fuel_coeff_a := 0
    fuel_coeff_b := 2 }

/-- The pyomo indices `(n.label, i, o, t)` of the constraints the block
adds, in loop order. -/
def quadIdx (m : Model) (g : List DieselGenerator) :
    List (String × String × String × ℕ) :=
  g.flatMap (fun n => m.TIMESTEPS.flatMap (fun t => (inFlowLabels n).flatMap
    (fun i => (outFlowLabels n).map (fun o => (n.label, i, o, t)))))

/-- The single constraint the block adds for `dgW` in `modelW`. -/
def conW : DGConstraint := pureConstraint modelW dgW "fuel_bus" "el" 0

/-- A sample assignment of the decision variables. -/
def sigW : PVar → ℚ := fun _ => 1

/-- The decreasing fuel curve `{1/2: 3, 1: 2}` used against C2. -/
def fcCex : List (ℚ × ℚ) := [(1/2, 3), (1, 2)]

/-- `DieselGenerator.__init__` run on `fcCex`. -/
def dgCex : Option (DieselGenerator × Bus) :=
  DieselGenerator.init "dg" fcCex [(busW, flowW)] [("el", flowW)] []

/-- Sample column of a flow from `bus1` to `dem`. -/
def colA : Col := (["bus1", "dem"], "flow")

/-- Sample column of a flow from `gen` to `bus1`. -/
def colB : Col := (["gen", "bus1"], "flow")

/-- A sample `ViewPlot` state. -/
def vpW : ViewPlot :=
  { results := fun _ => [(["gen", "bus1"], "flow"), (["bus1", "dem"], "flow")]
    seq := []
    subset := [(["gen", "bus1"], "flow"), (["bus1", "dem"], "flow")]
    in_cols := none
    out_cols := none
    node := none
    legend_kwargs := [("labels", "l0"), ("loc", "center left"), ("handles", "h0")] }

/-! ## Theorems -/

theorem pyGet_dictSet_self {α β : Type} [DecidableEq α] (d : List (α × β))
    (k : α) (v : β) : pyGet (dictSet d k v) k = some v := by
  induction d with
  | nil => simp [dictSet, pyGet]
  | cons p rest ih =>
    by_cases h : p.1 = k
    · simp [dictSet, pyGet, h]
    · simp [dictSet, pyGet, h, ih]

theorem pyGet_dictSet_ne {α β : Type} [DecidableEq α] (d : List (α × β))
    (k k' : α) (v : β) (hne : ¬ k' = k) :
    pyGet (dictSet d k v) k' = pyGet d k' := by
  have hne' : ¬ k = k' := fun h => hne h.symm
  induction d with
  | nil => simp [dictSet, pyGet, hne']
  | cons p rest ih =>
    by_cases h : p.1 = k
    · subst h
      have hne'' : ¬ p.1 = k' := hne'
      simp [dictSet, pyGet, hne'']
    · simp only [dictSet, if_neg h]
      by_cases h' : p.1 = k'
      · simp [pyGet, h']
      · simp [pyGet, h', ih]

theorem pyGet_dictUpdate_not_mem {α β : Type} [DecidableEq α]
    (upds : List (α × β)) (d : List (α × β)) (k : α)
    (h : ∀ v, ¬ (⟨k, v⟩ : α × β).1 ∈ upds.map Prod.fst) :
    pyGet (dictUpdate d upds) k = pyGet d k := by
  induction upds generalizing d with
  | nil => rfl
  | cons p rest ih =>
    have hk : ¬ k = p.1 := by
      intro hkp
      exact h p.2 (by simp [hkp])
    rw [show dictUpdate d (p :: rest) = dictUpdate (dictSet d p.1 p.2) rest from rfl]
    rw [ih _ (fun v hv => h v (by simpa using Or.inr (by simpa using hv)))]
    exact pyGet_dictSet_ne d p.1 k p.2 hk

theorem pyGet_dictUpdate_mem {α β : Type} [DecidableEq α]
    (upds : List (α × β)) (d : List (α × β)) (k : α) (v : β)
    (hnd : (upds.map Prod.fst).Nodup) (hmem : (k, v) ∈ upds) :
    pyGet (dictUpdate d upds) k = some v := by
  induction upds generalizing d with
  | nil => cases hmem
  | cons p rest ih =>
    rw [show dictUpdate d (p :: rest) = dictUpdate (dictSet d p.1 p.2) rest from rfl]
    rcases List.mem_cons.1 hmem with rfl | hmem'
    · have hk : ∀ w, ¬ ((k, w) : α × β).1 ∈ rest.map Prod.fst := by
        intro w hw
        simp only [List.map_cons, List.nodup_cons] at hnd
        exact hnd.1 (by simpa using hw)
      rw [pyGet_dictUpdate_not_mem rest _ k hk]
      exact pyGet_dictSet_self d k v
    · exact ih _ (by simp only [List.map_cons, List.nodup_cons] at hnd; exact hnd.2) hmem'

theorem pyGet_pyPop_self {α β : Type} [DecidableEq α] (d : List (α × β)) (k : α) :
    pyGet (pyPop d k) k = none := by
  induction d with
  | nil => rfl
  | cons p rest ih =>
    by_cases h : p.1 = k
    · simpa [pyPop, h] using ih
    · simpa [pyPop, pyGet, h] using ih

theorem pyGet_pyPop_ne {α β : Type} [DecidableEq α] (d : List (α × β))
    (k k' : α) (hne : ¬ k' = k) : pyGet (pyPop d k) k' = pyGet d k' := by
  have hkk' : ¬ k = k' := fun hh => hne hh.symm
  induction d with
  | nil => rfl
  | cons p rest ih =>
    by_cases h : p.1 = k
    · simpa [pyPop, pyGet, List.filter_cons, h, hkk'] using ih
    · by_cases h' : p.1 = k'
      · simp [pyPop, pyGet, List.filter_cons, h, h', hne]
      · simpa [pyPop, pyGet, List.filter_cons, h, h'] using ih

/-- C3: `custom_component_grouping` returns the `DieselGeneratorBlock`
class exactly for `DieselGenerator` instances and `None` for every other
node. -/
theorem custom_component_grouping_spec (node : Node) :
    (custom_component_grouping node = some BlockClass.dieselGeneratorBlock ↔
      ∃ g, node = Node.dieselGenerator g) ∧
    ((∀ g, ¬ node = Node.dieselGenerator g) →
      custom_component_grouping node = none) := by
  constructor
  · constructor
    · intro h
      cases node with
      | dieselGenerator g => exact ⟨g, rfl⟩
      | bus b => exact absurd h (by simp [custom_component_grouping])
      | other l => exact absurd h (by simp [custom_component_grouping])
    · rintro ⟨g, rfl⟩
      rfl
  · intro h
    cases node with
    | dieselGenerator g => exact absurd rfl (h g)
    | bus b => rfl
    | other l => rfl

theorem custom_component_grouping_spec_witness :
    custom_component_grouping (Node.dieselGenerator dgW) =
      some BlockClass.dieselGeneratorBlock ∧
    custom_component_grouping (Node.other "demand") = none :=
  ⟨(custom_component_grouping_spec (Node.dieselGenerator dgW)).1.2 ⟨dgW, rfl⟩,
   (custom_component_grouping_spec (Node.other "demand")).2
     (fun _ h => Node.noConfusion h)⟩

/-- C4: `DieselGeneratorBlock._create` with `group = None` returns `None`
and attaches nothing; a constraint build is produced exactly when a group
list is supplied. -/
theorem dieselGeneratorBlock_create_none (m : Model) :
    DieselGeneratorBlock.create m none = none ∧
    ∀ group : Option (List DieselGenerator),
      (DieselGeneratorBlock.create m group).isSome = group.isSome := by
  refine ⟨rfl, ?_⟩
  intro group
  cases group <;> rfl

/-- C8: `color_from_dict` colors every column from the dictionary with
fallback `'#ff00f0'`, returning the list of colors for two or more
columns but the bare color for a single column. -/
theorem color_from_dict_spec (vp : ViewPlot) (colordict : List (Col × String))
    (cols : List Col) :
    (2 ≤ cols.length →
      vp.color_from_dict colordict (some cols) =
        ColorSpec.many (cols.map (fun c => (pyGet colordict c).getD "#ff00f0"))) ∧
    (∀ c, cols = [c] →
      vp.color_from_dict colordict (some cols) =
        ColorSpec.one ((pyGet colordict c).getD "#ff00f0")) := by
  constructor
  · intro h2
    match cols, h2 with
    | c₁ :: c₂ :: rest, _ => rfl
  · rintro c rfl
    rfl

theorem guard_getD_iff (l : List String) (i : ℕ) (x : String) :
    (i < l.length ∧ l.getD i "" = x) ↔ l[i]? = some x := by
  rw [List.getElem?_eq_some_iff]
  constructor
  · rintro ⟨h, hx⟩
    refine ⟨h, ?_⟩
    rwa [List.getD_eq_getElem?_getD, List.getElem?_eq_getElem h, Option.getD_some] at hx
  · rintro ⟨h, hx⟩
    refine ⟨h, ?_⟩
    rw [List.getD_eq_getElem?_getD, List.getElem?_eq_getElem h, Option.getD_some]
    exact hx

/-- C6: `update_node` recomputes the node's sequences, classifies columns
by the node's position in the flow tuple (second entry: input, first
entry: output, both requiring a tuple of at least two labels), resets
`subset` to the full table, and drops the cached `'labels'` and
`'handles'` legend entries while keeping the others. -/
theorem update_node_spec (vp : ViewPlot) (node : String) (lin lout : List Col)
    (c : Col) (k : String)
    (hin : (vp.update_node node).in_cols = some lin)
    (hout : (vp.update_node node).out_cols = some lout) :
    (c ∈ lin ↔ c ∈ vp.results node ∧ c.1[1]? = some node) ∧
    (c ∈ lout ↔ c ∈ vp.results node ∧ 1 < c.1.length ∧ c.1[0]? = some node) ∧
    (vp.update_node node).seq = vp.results node ∧
    (vp.update_node node).subset = vp.results node ∧
    (vp.update_node node).node = some node ∧
    pyGet (vp.update_node node).legend_kwargs "labels" = none ∧
    pyGet (vp.update_node node).legend_kwargs "handles" = none ∧
    (¬ k = "labels" → ¬ k = "handles" →
      pyGet (vp.update_node node).legend_kwargs k = pyGet vp.legend_kwargs k) := by
  have hlin : lin = (vp.results node).filter
      (fun c' => decide (1 < c'.1.length ∧ c'.1.getD 1 "" = node)) := by
    have h' := hin
    simp only [ViewPlot.update_node] at h'
    exact (Option.some.inj h').symm
  have hlout : lout = (vp.results node).filter
      (fun c' => decide (1 < c'.1.length ∧ c'.1.getD 0 "" = node)) := by
    have h' := hout
    simp only [ViewPlot.update_node] at h'
    exact (Option.some.inj h').symm
  refine ⟨?_, ?_, rfl, rfl, rfl, ?_, ?_, ?_⟩
  · subst hlin
    simp only [List.mem_filter, decide_eq_true_iff]
    refine and_congr_right (fun _ => ?_)
    exact guard_getD_iff c.1 1 node
  · subst hlout
    simp only [List.mem_filter, decide_eq_true_iff]
    refine and_congr_right (fun _ => ?_)
    constructor
    · rintro ⟨h1, hx⟩
      exact ⟨h1, ((guard_getD_iff c.1 0 node).1
        ⟨Nat.lt_trans Nat.zero_lt_one h1, hx⟩)⟩
    · rintro ⟨h1, hx⟩
      exact ⟨h1, ((guard_getD_iff c.1 0 node).2 hx).2⟩
  · show pyGet (pyPop (pyPop vp.legend_kwargs "labels") "handles") "labels" = none
    rw [pyGet_pyPop_ne _ _ _ (by decide)]
    exact pyGet_pyPop_self _ _
  · show pyGet (pyPop (pyPop vp.legend_kwargs "labels") "handles") "handles" = none
    exact pyGet_pyPop_self _ _
  · intro hk1 hk2
    show pyGet (pyPop (pyPop vp.legend_kwargs "labels") "handles") k = _
    rw [pyGet_pyPop_ne _ _ _ hk2, pyGet_pyPop_ne _ _ _ hk1]

theorem update_node_spec_witness :
    colB ∈ [colB] ∧
    pyGet (vpW.update_node "bus1").legend_kwargs "labels" = none ∧
    pyGet (vpW.update_node "bus1").legend_kwargs "loc" = some "center left" := by
  have h := update_node_spec vpW "bus1" [colB] [colA] colB "loc" rfl rfl
  refine ⟨?_, h.2.2.2.2.2.1, ?_⟩
  · exact (h.1).2 (by decide)
  · rw [h.2.2.2.2.2.2.2 (by decide) (by decide)]
    rfl

/-- C7: `rearrange_subset` keeps exactly the order-list elements present
among the columns, in order-list order, warns exactly when some column is
dropped, and overwrites `subset` exactly when no explicit `df` was
passed. -/
theorem rearrange_subset_spec (vp : ViewPlot) (order cols : List Col) (x : Col)
    (vp₁ : ViewPlot) (res₁ : List Col) (w₁ : Bool)
    (vp₂ : ViewPlot) (res₂ : List Col) (w₂ : Bool)
    (h₁ : vp.rearrange_subset order (some cols) = (vp₁, res₁, w₁))
    (h₂ : vp.rearrange_subset order none = (vp₂, res₂, w₂)) :
    (x ∈ res₁ ↔ x ∈ order ∧ x ∈ cols) ∧
    res₁.Sublist order ∧
    (w₁ = true ↔ ∃ c ∈ cols, ¬ c ∈ order) ∧
    vp₁ = vp ∧
    res₂ = order.filter (fun y => y ∈ vp.subset) ∧
    vp₂.subset = res₂ ∧
    (w₂ = true ↔ ∃ c ∈ vp.subset, ¬ c ∈ order) := by
  rw [show vp.rearrange_subset order (some cols) =
      (vp, order.filter (fun x => x ∈ cols),
        decide (0 < (cols.filter (fun x => ¬ x ∈ order)).length)) from rfl] at h₁
  rw [show vp.rearrange_subset order none =
      ({ vp with subset := order.filter (fun x => x ∈ vp.subset) },
        order.filter (fun x => x ∈ vp.subset),
        decide (0 < ((vp.subset).filter (fun x => ¬ x ∈ order)).length)) from
    rfl] at h₂
  injection h₁ with ha h₁'
  injection h₁' with hb hc
  injection h₂ with hd h₂'
  injection h₂' with he hf
  subst ha hb hc hd he hf
  refine ⟨?_, List.filter_sublist order, ?_, rfl, rfl, rfl, ?_⟩
  · simp [List.mem_filter]
  · simp only [decide_eq_true_iff, List.length_pos_iff_exists_mem, List.mem_filter]
  · simp only [decide_eq_true_iff, List.length_pos_iff_exists_mem, List.mem_filter]

theorem rearrange_subset_spec_witness :
    colA ∈ (vpW.rearrange_subset [colA] (some [colB, colA])).2.1 ∧
    (vpW.rearrange_subset [colA] (some [colB, colA])).2.2 = true := by
  have h := rearrange_subset_spec vpW [colA] [colB, colA] colA
    (vpW.rearrange_subset [colA] (some [colB, colA])).1
    (vpW.rearrange_subset [colA] (some [colB, colA])).2.1
    (vpW.rearrange_subset [colA] (some [colB, colA])).2.2
    (vpW.rearrange_subset [colA] none).1
    (vpW.rearrange_subset [colA] none).2.1
    (vpW.rearrange_subset [colA] none).2.2
    rfl rfl
  exact ⟨h.1.2 ⟨by decide, by decide⟩, h.2.2.1.2 ⟨colB, by decide, by decide⟩⟩

theorem color_from_dict_spec_witness :
    2 ≤ [((["gen", "bus1"], "flow") : Col), ((["bus1", "dem"], "flow") : Col)].length ∧
    vpW.color_from_dict [((["gen", "bus1"], "flow"), "#123456")]
      (some [(["gen", "bus1"], "flow"), (["bus1", "dem"], "flow")]) =
      ColorSpec.many ["#123456", "#ff00f0"] :=
  ⟨by decide,
   by
    have h := (color_from_dict_spec vpW [((["gen", "bus1"], "flow"), "#123456")]
      [(["gen", "bus1"], "flow"), (["bus1", "dem"], "flow")]).1 (by decide)
    simpa [pyGet] using h⟩

/-- C5: after `DieselGenerator.__init__`, the first fuel bus's `outputs`
dict maps the new generator to the fuel flow, and the generator's own
`outputs` contain every `(bus, flow)` pair of `electrical_output`. -/
theorem dieselGenerator_init_edges (label : String) (fc : List (ℚ × ℚ))
    (fuel_input : List (Bus × Flow)) (eo bo : List (String × Flow))
    (g : DieselGenerator) (bus' : Bus) (b₀ : Bus) (f₀ : Flow)
    (ob : String) (of : Flow)
    (hhead : fuel_input.head? = some (b₀, f₀))
    (hinit : DieselGenerator.init label fc fuel_input eo bo = some (g, bus'))
    (hkeys : (eo.map Prod.fst).Nodup)
    (hmem : (ob, of) ∈ eo) :
    g.label = label ∧
    bus'.label = b₀.label ∧
    pyGet bus'.outputs g.label = some f₀ ∧
    pyGet g.outputs ob = some of := by
  cases fuel_input with
  | nil => cases hhead
  | cons p rest =>
    obtain ⟨b₁, f₁⟩ := p
    have hp : b₁ = b₀ ∧ f₁ = f₀ := by
      have h' := Option.some.inj hhead
      exact ⟨congrArg Prod.fst h', congrArg Prod.snd h'⟩
    obtain ⟨rfl, rfl⟩ := hp
    simp only [DieselGenerator.init] at hinit
    have hg := congrArg Prod.fst (Option.some.inj hinit)
    have hbus := congrArg Prod.snd (Option.some.inj hinit)
    simp only at hg hbus
    subst hg
    subst hbus
    refine ⟨rfl, rfl, ?_, ?_⟩
    · exact pyGet_dictSet_self _ _ _
    · exact pyGet_dictUpdate_mem eo bo ob of hkeys hmem

theorem dieselGenerator_init_edges_witness :
    [((busW, flowW) : Bus × Flow)].head? = some (busW, flowW) ∧
    pyGet busW'.outputs dgW.label = some flowW ∧
    pyGet dgW.outputs "el" = some flowW := by
  have hinit : DieselGenerator.init "dg" [(0, 1), (1, 3)] [(busW, flowW)]
      [("el", flowW)] [] = some (dgW, busW') := by
    simp only [DieselGenerator.init]
    norm_num [polyfit1, lsSlope, lsIntercept, lsDenom, lsN, lsSx, lsSy, lsSxy,
      lsSxx, List.insertionSort, List.orderedInsert, pyInt, dgW, busW', busW,
      flowW, dictUpdate, dictSet]
  have h := dieselGenerator_init_edges "dg" [(0, 1), (1, 3)] [(busW, flowW)]
    [("el", flowW)] [] dgW busW' busW flowW "el" flowW rfl hinit
    (by decide) (by decide)
  exact ⟨rfl, h.2.2.1, h.2.2.2⟩

/-! ### Least-squares facts for the fuel-curve linearization (C2) -/

theorem ssr_decomp (pts : List (ℚ × ℚ)) (a b a' b' : ℚ) :
    SSR pts a b = SSR pts a' b'
      + 2 * (a - a') * ((pts.map (fun p => (a' * p.1 + b' - p.2) * p.1)).sum)
      + 2 * (b - b') * ((pts.map (fun p => a' * p.1 + b' - p.2)).sum)
      + (pts.map (fun p => ((a - a') * p.1 + (b - b')) ^ 2)).sum := by
  induction pts with
  | nil => simp [SSR]
  | cons p rest ih =>
    simp only [SSR, List.map_cons, List.sum_cons] at ih ⊢
    linear_combination ih

theorem residual_sum0 (pts : List (ℚ × ℚ)) (a' b' : ℚ) :
    (pts.map (fun p => a' * p.1 + b' - p.2)).sum =
      a' * lsSx pts + lsN pts * b' - lsSy pts := by
  induction pts with
  | nil => simp [lsSx, lsN, lsSy]
  | cons p rest ih =>
    simp only [lsSx, lsN, lsSy, List.map_cons, List.sum_cons,
      List.length_cons] at ih ⊢
    push_cast
    linear_combination ih

theorem residual_sum1 (pts : List (ℚ × ℚ)) (a' b' : ℚ) :
    (pts.map (fun p => (a' * p.1 + b' - p.2) * p.1)).sum =
      a' * lsSxx pts + b' * lsSx pts - lsSxy pts := by
  induction pts with
  | nil => simp [lsSxx, lsSx, lsSxy]
  | cons p rest ih =>
    simp only [lsSxx, lsSx, lsSxy, List.map_cons, List.sum_cons] at ih ⊢
    linear_combination ih

theorem sum_sq_nonneg' (pts : List (ℚ × ℚ)) (c d : ℚ) :
    0 ≤ (pts.map (fun p => (c * p.1 + d) ^ 2)).sum := by
  induction pts with
  | nil => simp
  | cons p rest ih =>
    simp only [List.map_cons, List.sum_cons]
    have h := sq_nonneg (c * p.1 + d)
    linarith

theorem lsN_ne_zero (pts : List (ℚ × ℚ)) (hD : ¬ lsDenom pts = 0) :
    ¬ lsN pts = 0 := by
  intro h
  apply hD
  have hnil : pts = [] := by
    cases pts with
    | nil => rfl
    | cons q rest =>
      exfalso
      simp only [lsN, List.length_cons] at h
      have : ((rest.length + 1 : ℕ) : ℚ) ≠ 0 := by
        push_cast
        positivity
      exact this h
  subst hnil
  simp [lsDenom, lsN, lsSx, lsSxx]

theorem lsFit_normal (pts : List (ℚ × ℚ)) (hD : ¬ lsDenom pts = 0) :
    (pts.map (fun p => lsSlope pts * p.1 + lsIntercept pts - p.2)).sum = 0 ∧
    (pts.map (fun p => (lsSlope pts * p.1 + lsIntercept pts - p.2) * p.1)).sum
      = 0 := by
  have hn := lsN_ne_zero pts hD
  have hD' : lsN pts * lsSxx pts - lsSx pts * lsSx pts ≠ 0 := hD
  constructor
  · rw [residual_sum0, lsIntercept]
    field_simp
  · rw [residual_sum1, lsIntercept, lsSlope, lsDenom]
    field_simp
    ring

theorem lsFit_optimal (pts : List (ℚ × ℚ)) (hD : ¬ lsDenom pts = 0) (a b : ℚ) :
    SSR pts (lsSlope pts) (lsIntercept pts) ≤ SSR pts a b := by
  obtain ⟨h0, h1⟩ := lsFit_normal pts hD
  have hd := ssr_decomp pts a b (lsSlope pts) (lsIntercept pts)
  rw [h0, h1] at hd
  have hq := sum_sq_nonneg' pts (a - lsSlope pts) (b - lsIntercept pts)
  linarith

/-- C2 counterexample: on the decreasing fuel curve `{1/2: 3, 1: 2}` the
code computes `(fuel_coeff_a, fuel_coeff_b) = (2, 1)` (fit of the
mis-paired points `(1/2, 2), (1, 3)`), while the degree-1 least-squares
fit of the actual pair set `{(1/2, 3), (1, 2)}` is the interpolating line
`(-2, 4)` (zero residual); `(2, 1)` has nonzero residual, so the claimed
pairing is violated. -/
theorem dieselGenerator_fuel_curve_pairing_cex :
    dgCex.map (fun p => (p.1.fuel_coeff_a, p.1.fuel_coeff_b)) = some (2, 1) ∧
    lsSlope fcCex = -2 ∧ lsIntercept fcCex = 4 ∧
    SSR fcCex (-2) 4 = 0 ∧ ¬ SSR fcCex 2 1 = 0 := by
  refine ⟨?_, ?_, ?_, ?_, ?_⟩
  · show (DieselGenerator.init "dg" fcCex [(busW, flowW)]
      [("el", flowW)] []).map _ = _
    simp only [fcCex, DieselGenerator.init]
    norm_num [polyfit1, lsSlope, lsIntercept, lsDenom, lsN, lsSx, lsSy, lsSxy,
      lsSxx, List.insertionSort, List.orderedInsert, pyInt]
  · norm_num [lsSlope, lsDenom, lsN, lsSx, lsSy, lsSxy, lsSxx, fcCex]
  · norm_num [lsIntercept, lsSlope, lsDenom, lsN, lsSx, lsSy, lsSxy, lsSxx,
      fcCex]
  · norm_num [SSR, fcCex]
  · norm_num [SSR, fcCex]

/-- C2 (amended): `__init__` sets `(fuel_coeff_a, fuel_coeff_b)` to the
degree-1 least-squares fit of the pairs obtained by sorting the operating
points and the `int`-truncated fuel-consumption values independently and
zipping them together; whenever that system is well posed, the
coefficients minimize the sum of squared residuals over those sorted,
truncated pairs. -/
theorem dieselGenerator_coeffs_least_squares (label : String)
    (fc : List (ℚ × ℚ)) (fuel_input : List (Bus × Flow))
    (eo bo : List (String × Flow)) (g : DieselGenerator) (bus' : Bus)
    (a b : ℚ)
    (hinit : DieselGenerator.init label fc fuel_input eo bo = some (g, bus'))
    (hD : ¬ lsDenom (sortedTruncPairs fc) = 0) :
    g.fuel_coeff_a = lsSlope (sortedTruncPairs fc) ∧
    g.fuel_coeff_b = lsIntercept (sortedTruncPairs fc) ∧
    SSR (sortedTruncPairs fc) g.fuel_coeff_a g.fuel_coeff_b ≤
      SSR (sortedTruncPairs fc) a b := by
  cases fuel_input with
  | nil => cases hinit
  | cons p rest =>
    obtain ⟨b₁, f₁⟩ := p
    simp only [DieselGenerator.init] at hinit
    have hg := congrArg Prod.fst (Option.some.inj hinit)
    simp only at hg
    subst hg
    refine ⟨rfl, rfl, ?_⟩
    show SSR (sortedTruncPairs fc) (polyfit1 _ _).1 (polyfit1 _ _).2 ≤ _
    have hfit : (polyfit1
        (List.insertionSort (fun a b : ℚ => a ≤ b) (fc.map Prod.fst))
        (List.insertionSort (fun a b : ℚ => a ≤ b)
          (fc.map (fun p => (pyInt p.2 : ℚ))))) =
        (lsSlope (sortedTruncPairs fc), lsIntercept (sortedTruncPairs fc)) :=
      rfl
    rw [hfit]
    exact lsFit_optimal (sortedTruncPairs fc) hD a b

theorem dieselGenerator_coeffs_least_squares_witness :
    DieselGenerator.init "dg" [(0, 1), (1, 3)] [(busW, flowW)]
      [("el", flowW)] [] = some (dgW, busW') ∧
    ¬ lsDenom (sortedTruncPairs [(0, 1), (1, 3)]) = 0 ∧
    dgW.fuel_coeff_a = lsSlope (sortedTruncPairs [(0, 1), (1, 3)]) ∧
    dgW.fuel_coeff_b = lsIntercept (sortedTruncPairs [(0, 1), (1, 3)]) ∧
    SSR (sortedTruncPairs [(0, 1), (1, 3)]) dgW.fuel_coeff_a dgW.fuel_coeff_b ≤
      SSR (sortedTruncPairs [(0, 1), (1, 3)]) 0 0 := by
  have hinit : DieselGenerator.init "dg" [(0, 1), (1, 3)] [(busW, flowW)]
      [("el", flowW)] [] = some (dgW, busW') := by
    simp only [DieselGenerator.init]
    norm_num [polyfit1, lsSlope, lsIntercept, lsDenom, lsN, lsSx, lsSy, lsSxy,
      lsSxx, List.insertionSort, List.orderedInsert, pyInt, dgW, busW', busW,
      flowW, dictUpdate, dictSet]
  have hD : ¬ lsDenom (sortedTruncPairs [((0 : ℚ), (1 : ℚ)), (1, 3)]) = 0 := by
    norm_num [sortedTruncPairs, lsDenom, lsN, lsSx, lsSxx,
      List.insertionSort, List.orderedInsert, pyInt]
  have h := dieselGenerator_coeffs_least_squares "dg" [(0, 1), (1, 3)]
    [(busW, flowW)] [("el", flowW)] [] dgW busW' 0 0 hinit hD
  exact ⟨hinit, hD, h.1, h.2.1, h.2.2⟩

/-! ### Evaluation of the block's linear expressions (C1, C9) -/

theorem sum_map_neg (l : List (PVar × ℚ)) (σ : PVar → ℚ) :
    ((l.map (fun p => (p.1, -p.2))).map (fun p => p.2 * σ p.1)).sum =
      -(l.map (fun p => p.2 * σ p.1)).sum := by
  induction l with
  | nil => simp
  | cons p rest ih =>
    simp only [List.map_cons, List.sum_cons, ih]
    ring

theorem sum_map_scale (l : List (PVar × ℚ)) (σ : PVar → ℚ) (c : ℚ) :
    ((l.map (fun p => (p.1, p.2 * c))).map (fun p => p.2 * σ p.1)).sum =
      (l.map (fun p => p.2 * σ p.1)).sum * c := by
  induction l with
  | nil => simp
  | cons p rest ih =>
    simp only [List.map_cons, List.sum_cons, ih]
    ring

theorem LinExpr.eval_var (v : PVar) (σ : PVar → ℚ) :
    (LinExpr.var v).eval σ = σ v := by
  simp [LinExpr.var, LinExpr.eval]

theorem LinExpr.eval_sub (e₁ e₂ : LinExpr) (σ : PVar → ℚ) :
    (e₁.sub e₂).eval σ = e₁.eval σ - e₂.eval σ := by
  unfold LinExpr.eval LinExpr.sub
  simp only [List.map_append, List.sum_append, sum_map_neg]
  ring

theorem LinExpr.eval_mulc (e : LinExpr) (c : ℚ) (σ : PVar → ℚ) :
    (e.mulc c).eval σ = e.eval σ * c := by
  unfold LinExpr.eval LinExpr.mulc
  simp only [sum_map_scale]
  ring

theorem pureConstraint_eval (m : Model) (n : DieselGenerator) (i o : String)
    (t : ℕ) (σ : PVar → ℚ) :
    (pureConstraint m n i o t).lhs.eval σ =
      (σ (.flow i n.label t) - n.fuel_coeff_b * σ (.status n.label o t)) *
        (m.flows n.label o).nominal_value / n.fuel_coeff_a ∧
    (pureConstraint m n i o t).rhs.eval σ = σ (.flow n.label o t) := by
  constructor
  · show ((((LinExpr.var _).sub ((LinExpr.var _).mulc _)).mulc _).mulc _).eval σ = _
    rw [LinExpr.eval_mulc, LinExpr.eval_mulc, LinExpr.eval_sub,
      LinExpr.eval_mulc, LinExpr.eval_var, LinExpr.eval_var]
    rw [div_eq_mul_inv]
    ring
  · exact LinExpr.eval_var _ σ

theorem mkConstraint_ok (m : Model) (n : DieselGenerator) (i o : String)
    (t : ℕ) (ha : ¬ n.fuel_coeff_a = 0) :
    mkConstraint m n i o t = Except.ok (pureConstraint m n i o t) := by
  unfold mkConstraint LinExpr.divc
  rw [if_neg ha]
  rfl

theorem mkConstraint_zero (m : Model) (n : DieselGenerator) (i o : String)
    (t : ℕ) (ha : n.fuel_coeff_a = 0) :
    mkConstraint m n i o t = Except.error (valueErrorFor n o) := by
  unfold mkConstraint LinExpr.divc
  rw [if_pos ha]

theorem mkConstraint_error_inv (m : Model) (n : DieselGenerator) (i o : String)
    (t : ℕ) (e : PyValueError) (h : mkConstraint m n i o t = Except.error e) :
    e = valueErrorFor n o := by
  by_cases ha : n.fuel_coeff_a = 0
  · rw [mkConstraint_zero m n i o t ha] at h
    exact (Except.error.inj h).symm
  · rw [mkConstraint_ok m n i o t ha] at h
    cases h

theorem mkConstraint_ok_inv (m : Model) (n : DieselGenerator) (i o : String)
    (t : ℕ) (c : DGConstraint) (h : mkConstraint m n i o t = Except.ok c) :
    c = pureConstraint m n i o t := by
  by_cases ha : n.fuel_coeff_a = 0
  · rw [mkConstraint_zero m n i o t ha] at h
    cases h
  · rw [mkConstraint_ok m n i o t ha] at h
    exact (Except.ok.inj h).symm

/-! ### `mapM` over `Except` -/

theorem mapM_ok_forall₂ {α β ε : Type} (f : α → Except ε β) :
    ∀ (l : List α) (bs : List β), l.mapM' f = Except.ok bs →
      List.Forall₂ (fun a b => f a = Except.ok b) l bs := by
  intro l
  induction l with
  | nil =>
    intro bs h
    have hb : bs = [] := by
      simp only [List.mapM', pure, Except.pure] at h
      exact (Except.ok.inj h).symm
    subst hb
    exact List.Forall₂.nil
  | cons a as ih =>
    intro bs h
    simp only [List.mapM'] at h
    cases hfa : f a with
    | error e =>
      rw [hfa] at h
      simp only [Bind.bind, Except.bind] at h
      cases h
    | ok b =>
      rw [hfa] at h
      simp only [Bind.bind, Except.bind] at h
      cases hrest : as.mapM' f with
      | error e =>
        rw [hrest] at h
        simp only [Bind.bind, Except.bind] at h
        cases h
      | ok rest =>
        rw [hrest] at h
        simp only [Bind.bind, Except.bind, pure, Except.pure] at h
        have hb : bs = b :: rest := (Except.ok.inj h).symm
        subst hb
        exact List.Forall₂.cons hfa (ih rest hrest)

theorem mapM_error_exists {α β ε : Type} (f : α → Except ε β) :
    ∀ (l : List α) (e : ε), l.mapM' f = Except.error e →
      ∃ a ∈ l, f a = Except.error e := by
  intro l
  induction l with
  | nil =>
    intro e h
    simp only [List.mapM', pure, Except.pure] at h
    cases h
  | cons a as ih =>
    intro e h
    simp only [List.mapM'] at h
    cases hfa : f a with
    | error e' =>
      rw [hfa] at h
      simp only [Bind.bind, Except.bind] at h
      have he : e' = e := Except.error.inj h
      exact ⟨a, List.mem_cons_self a as, by rw [hfa, he]⟩
    | ok b =>
      rw [hfa] at h
      simp only [Bind.bind, Except.bind] at h
      cases hrest : as.mapM' f with
      | error e' =>
        rw [hrest] at h
        simp only [Bind.bind, Except.bind] at h
        have he : e' = e := Except.error.inj h
        obtain ⟨a', ha', hfa'⟩ := ih e' hrest
        exact ⟨a', List.mem_cons_of_mem a ha', by rw [hfa', he]⟩
      | ok rest =>
        rw [hrest] at h
        simp only [Bind.bind, Except.bind, pure, Except.pure] at h
        cases h

theorem forall₂_ok_eq_map {α β : Type} (p : α → β) (r : α → β → Prop)
    (hr : ∀ a b, r a b → b = p a) :
    ∀ (l : List α) (bs : List β), List.Forall₂ r l bs → bs = l.map p := by
  intro l bs h
  induction h with
  | nil => rfl
  | cons hab _ ih => simp [List.map_cons, hr _ _ hab, ih]

theorem buildConstraints_ok_eq (m : Model) (g : List DieselGenerator)
    (cs : List DGConstraint) (h : buildConstraints m g = Except.ok cs) :
    cs = (constraintQuads m g).map
      (fun q => pureConstraint m q.1 q.2.1 q.2.2.1 q.2.2.2) := by
  unfold buildConstraints at h
  rw [← List.mapM'_eq_mapM] at h
  exact forall₂_ok_eq_map _ _
    (fun q c hqc => mkConstraint_ok_inv m q.1 q.2.1 q.2.2.1 q.2.2.2 c hqc)
    _ _ (mapM_ok_forall₂ _ _ _ h)

/-! ### Uniqueness of the constraint indices (C1) -/

theorem countP_eq_one_of_nodup_mem {α : Type} [DecidableEq α] (l : List α)
    (a : α) (hn : l.Nodup) (ha : a ∈ l) :
    l.countP (fun x => decide (x = a)) = 1 := by
  induction l with
  | nil => cases ha
  | cons b rest ih =>
    rw [List.countP_cons]
    rcases List.mem_cons.1 ha with rfl | ha'
    · have hnr : ¬ a ∈ rest := (List.nodup_cons.1 hn).1
      rw [List.countP_eq_zero.2 ?_]
      · simp
      · intro x hx
        simp only [decide_eq_true_iff]
        intro hxa
        exact hnr (hxa ▸ hx)
    · have hb : ¬ b = a := fun h => (List.nodup_cons.1 hn).1 (h ▸ ha')
      rw [ih (List.nodup_cons.1 hn).2 ha']
      simp [hb]

theorem mem_innerT (n : DieselGenerator) (t : ℕ)
    (x : String × String × String × ℕ)
    (hx : x ∈ (inFlowLabels n).flatMap (fun i =>
      (outFlowLabels n).map (fun o => (n.label, i, o, t)))) :
    x.2.2.2 = t := by
  simp only [List.mem_flatMap, List.mem_map] at hx
  obtain ⟨i, _, o, _, rfl⟩ := hx
  rfl

theorem mem_innerIdx_fst (m : Model) (n : DieselGenerator)
    (x : String × String × String × ℕ)
    (hx : x ∈ m.TIMESTEPS.flatMap (fun t => (inFlowLabels n).flatMap (fun i =>
      (outFlowLabels n).map (fun o => (n.label, i, o, t))))) :
    x.1 = n.label := by
  simp only [List.mem_flatMap, List.mem_map] at hx
  obtain ⟨t, _, i, _, o, _, rfl⟩ := hx
  rfl

theorem innerIdx_nodup (m : Model) (n : DieselGenerator)
    (hts : m.TIMESTEPS.Nodup) (hinn : (inFlowLabels n).Nodup)
    (houtn : (outFlowLabels n).Nodup) :
    (m.TIMESTEPS.flatMap (fun t => (inFlowLabels n).flatMap (fun i =>
      (outFlowLabels n).map (fun o => (n.label, i, o, t))))).Nodup := by
  rw [List.nodup_flatMap]
  constructor
  · intro t _
    rw [List.nodup_flatMap]
    constructor
    · intro i _
      refine houtn.map ?_
      intro o o' h
      have h' := congrArg (fun y : String × String × String × ℕ => y.2.2.1) h
      simpa using h'
    · refine hinn.imp ?_
      intro i i' hne x hx hx'
      simp only [List.mem_map] at hx hx'
      obtain ⟨o, _, rfl⟩ := hx
      obtain ⟨o', _, h⟩ := hx'
      exact hne (congrArg (fun y : String × String × String × ℕ => y.2.1) h).symm
  · refine hts.imp ?_
    intro t t' hne x hx hx'
    have h1 := mem_innerT n t x hx
    have h2 := mem_innerT n t' x hx'
    exact hne (h1 ▸ h2 ▸ rfl)

theorem quadIdx_nodup (m : Model) (g : List DieselGenerator)
    (hlab : (g.map DieselGenerator.label).Nodup)
    (hts : m.TIMESTEPS.Nodup)
    (hin : ∀ n' ∈ g, (inFlowLabels n').Nodup)
    (hout : ∀ n' ∈ g, (outFlowLabels n').Nodup) :
    (quadIdx m g).Nodup := by
  unfold quadIdx
  rw [List.nodup_flatMap]
  constructor
  · intro n hn
    exact innerIdx_nodup m n hts (hin n hn) (hout n hn)
  · have hp : g.Pairwise (fun n₁ n₂ => n₁.label ≠ n₂.label) :=
      List.pairwise_map.1 hlab
    refine hp.imp ?_
    intro n₁ n₂ hne x hx hx'
    exact hne ((mem_innerIdx_fst m n₁ x hx) ▸ (mem_innerIdx_fst m n₂ x hx'))

theorem quads_map_idx (m : Model) (g : List DieselGenerator) :
    (constraintQuads m g).map
      (fun q => (q.1.label, q.2.1, q.2.2.1, q.2.2.2)) = quadIdx m g := by
  unfold constraintQuads quadIdx
  simp only [List.map_flatMap, List.map_map]
  rfl

theorem idx_mem_quadIdx (m : Model) (g : List DieselGenerator)
    (n : DieselGenerator) (i o : String) (t : ℕ)
    (hn : n ∈ g) (hi : i ∈ inFlowLabels n) (ho : o ∈ outFlowLabels n)
    (ht : t ∈ m.TIMESTEPS) :
    (n.label, i, o, t) ∈ quadIdx m g := by
  unfold quadIdx
  simp only [List.mem_flatMap, List.mem_map]
  exact ⟨n, hn, t, ht, i, hi, o, ho, rfl⟩

theorem mem_constraintQuads (m : Model) (g : List DieselGenerator)
    (q : DieselGenerator × String × String × ℕ) :
    q ∈ constraintQuads m g ↔
      q.1 ∈ g ∧ q.2.2.2 ∈ m.TIMESTEPS ∧ q.2.1 ∈ inFlowLabels q.1 ∧
      q.2.2.1 ∈ outFlowLabels q.1 := by
  obtain ⟨n', i', o', t'⟩ := q
  unfold constraintQuads
  simp only [List.mem_flatMap, List.mem_map]
  constructor
  · rintro ⟨n, hn, t, ht, i, hi, o, ho, hq⟩
    injection hq with h1 h2
    injection h2 with h3 h4
    injection h4 with h5 h6
    subst h1 h3 h5 h6
    exact ⟨hn, ht, hi, ho⟩
  · rintro ⟨hn, ht, hi, ho⟩
    exact ⟨n', hn, t', ht, i', hi, o', ho, rfl⟩

/-- C1: for every generator of the group, every fuel bus, output bus and
timestep, the block adds exactly one `relation` constraint with index
`(n, i, o, t)`, and under every assignment of the flow and status
variables that constraint reads
`(flow[i,n,t] - fuel_coeff_b * status[n,o,t]) * nominal_value / fuel_coeff_a
 = flow[n,o,t]`: an equality linear in the flow and status variables. -/
theorem dieselGeneratorBlock_create_relation (m : Model)
    (g : List DieselGenerator) (cs : List DGConstraint)
    (n : DieselGenerator) (i o : String) (t : ℕ) (c : DGConstraint)
    (σ : PVar → ℚ)
    (hcs : DieselGeneratorBlock.create m (some g) = some (Except.ok cs))
    (hlab : (g.map DieselGenerator.label).Nodup)
    (hts : m.TIMESTEPS.Nodup)
    (hin : ∀ n' ∈ g, (inFlowLabels n').Nodup)
    (hout : ∀ n' ∈ g, (outFlowLabels n').Nodup)
    (hn : n ∈ g) (hi : i ∈ inFlowLabels n) (ho : o ∈ outFlowLabels n)
    (ht : t ∈ m.TIMESTEPS)
    (hc : c ∈ cs) (hidx : c.index = (n.label, i, o, t)) :
    cs.countP (fun c' => decide (c'.index = (n.label, i, o, t))) = 1 ∧
    c.lhs.eval σ =
      (σ (.flow i n.label t) - n.fuel_coeff_b * σ (.status n.label o t)) *
        (m.flows n.label o).nominal_value / n.fuel_coeff_a ∧
    c.rhs.eval σ = σ (.flow n.label o t) := by
  have hbc : buildConstraints m g = Except.ok cs := Option.some.inj hcs
  have hcs_eq := buildConstraints_ok_eq m g cs hbc
  subst hcs_eq
  constructor
  · have h1 : ((constraintQuads m g).map
        (fun q => pureConstraint m q.1 q.2.1 q.2.2.1 q.2.2.2)).countP
          (fun c' => decide (c'.index = (n.label, i, o, t))) =
        (quadIdx m g).countP (fun x => decide (x = (n.label, i, o, t))) := by
      rw [List.countP_map, ← quads_map_idx, List.countP_map]
      rfl
    rw [h1]
    exact countP_eq_one_of_nodup_mem _ _
      (quadIdx_nodup m g hlab hts hin hout)
      (idx_mem_quadIdx m g n i o t hn hi ho ht)
  · obtain ⟨q, hq, hcq⟩ := List.mem_map.1 hc
    obtain ⟨n', i', o', t'⟩ := q
    subst hcq
    rw [show (pureConstraint m n' i' o' t').index = (n'.label, i', o', t')
      from rfl] at hidx
    injection hidx with h1 h2
    injection h2 with h3 h4
    injection h4 with h5 h6
    subst h3 h5 h6
    have hq' := (mem_constraintQuads m g _).1 hq
    have hnn : n' = n :=
      List.inj_on_of_nodup_map hlab hq'.1 hn h1
    subst hnn
    exact pureConstraint_eval m n' _ _ _ σ

theorem dieselGeneratorBlock_create_relation_witness :
    DieselGeneratorBlock.create modelW (some [dgW]) =
      some (Except.ok [conW]) ∧
    ([conW].countP
        (fun c' => decide (c'.index = (dgW.label, "fuel_bus", "el", 0))) = 1 ∧
      conW.lhs.eval sigW =
        (sigW (.flow "fuel_bus" dgW.label 0) -
            dgW.fuel_coeff_b * sigW (.status dgW.label "el" 0)) *
          (modelW.flows dgW.label "el").nominal_value / dgW.fuel_coeff_a ∧
      conW.rhs.eval sigW = sigW (.flow dgW.label "el" 0)) := by
  have hb : buildConstraints modelW [dgW] = Except.ok [conW] := by
    unfold buildConstraints
    rw [← List.mapM'_eq_mapM]
    show ([((dgW : DieselGenerator), ("fuel_bus" : String), ("el" : String),
      (0 : ℕ))].mapM' _) = _
    simp only [List.mapM']
    rw [mkConstraint_ok modelW dgW "fuel_bus" "el" 0 (by norm_num [dgW])]
    rfl
  have hcs : DieselGeneratorBlock.create modelW (some [dgW]) =
      some (Except.ok [conW]) := by
    show some (buildConstraints modelW [dgW]) = _
    rw [hb]
  refine ⟨hcs, ?_⟩
  exact dieselGeneratorBlock_create_relation modelW [dgW] [conW] dgW
    "fuel_bus" "el" 0 conW sigW hcs (by decide) (by decide)
    (by intro n' hn'; cases hn' with
        | head => decide
        | tail _ h => cases h)
    (by intro n' hn'; cases hn' with
        | head => decide
        | tail _ h => cases h)
    (List.mem_cons_self dgW []) (by decide) (by decide) (by decide)
    (List.mem_cons_self conW []) rfl

/-- C9: any exception while building the constraint expression for
generator `n` and output bus `o` is converted to
`ValueError('Error in constraint creation', 'source: n, target: o')`
rather than propagated; in particular `fuel_coeff_a = 0` (division by
zero) yields exactly that error, and every error the build action can
return has this shape. -/
theorem dieselGeneratorBlock_create_error (m : Model) (n : DieselGenerator)
    (i o : String) (t : ℕ) (e : PyValueError) (g : List DieselGenerator)
    (e' : PyValueError) :
    (mkConstraint m n i o t = Except.error e → e = valueErrorFor n o) ∧
    (n.fuel_coeff_a = 0 →
      mkConstraint m n i o t = Except.error (valueErrorFor n o)) ∧
    (buildConstraints m g = Except.error e' →
      ∃ n' ∈ g, ∃ o' ∈ outFlowLabels n', e' = valueErrorFor n' o') := by
  refine ⟨mkConstraint_error_inv m n i o t e, mkConstraint_zero m n i o t, ?_⟩
  intro h
  unfold buildConstraints at h
  rw [← List.mapM'_eq_mapM] at h
  obtain ⟨q, hq, hfq⟩ := mapM_error_exists _ _ _ h
  obtain ⟨n', i', o', t'⟩ := q
  have hqm := (mem_constraintQuads m g _).1 hq
  exact ⟨n', hqm.1, o', hqm.2.2.2,
    mkConstraint_error_inv m n' i' o' t' e' hfq⟩

theorem dieselGeneratorBlock_create_error_witness :
    dgZ.fuel_coeff_a = 0 ∧
    mkConstraint modelW dgZ "fuel_bus" "el" 0 =
      Except.error (valueErrorFor dgZ "el") :=
  ⟨rfl,
   (dieselGeneratorBlock_create_error modelW dgZ "fuel_bus" "el" 0
      (valueErrorFor dgZ "el") [] (valueErrorFor dgZ "el")).2.1 rfl⟩

end Oemof
